import Mathlib

/-!
Verification of the build-environment resolution layer
(pkg/build/context.go): environment construction with GOROOT
reconciliation, module-graph resolution, and local-import
qualification.  The Go code is shallowly embedded: external process
results (the output of the listing facility, the probe, the package
loader) are explicit inputs, and the Go map over module paths is an
association list with unique keys.
-/

namespace KoBuild

/-- Mirror of the Go struct modInfo: one decoded module record
with fields Path, Dir, Main. -/
structure modInfo where
  Path : String
  Dir : String
  Main : Bool
deriving Repr, DecidableEq

/-- Mirror of the Go struct modules: the module graph, a main module
(nil until discovered, hence Option) and a dependency map keyed by
module path.  The Go map is modelled as an association list whose
keys stay unique because every write goes through mapInsert. -/
structure modules where
  main : Option modInfo
  deps : List (String × modInfo)
deriving Repr, DecidableEq

/-- Go map assignment m[k] = v: replace the binding when the key is
present, add a fresh binding otherwise (last-write-wins). -/
def mapInsert : List (String × modInfo) → String → modInfo → List (String × modInfo)
  | [], k, v => [(k, v)]
  | p :: m, k, v => if p.1 = k then (k, v) :: m else p :: mapInsert m k v

/-- Go map lookup m[k]. -/
def mapFind (m : List (String × modInfo)) (k : String) : Option modInfo :=
  (m.find? (fun p => p.1 = k)).map Prod.snd

/-- One step of the decode loop body on a successfully decoded record:
insert it into the dependency map keyed by its path, and when it is
marked Main make it the graph main module. -/
def decodeStep (acc : modules) (info : modInfo) : modules :=
  { main := if info.Main then some info else acc.main,
    deps := mapInsert acc.deps info.Path info }

/-- The result of one dec.Decode call in the Go loop: either a decode
error (any non-EOF error) or a record; the end of the event list is
io.EOF. -/
abbrev DecodeEvent := Except String modInfo

/-- The Go for-loop of moduleInfo over the JSON decoder: stop at EOF
returning the accumulated graph; on a decode error return the error
wrapped with the context message (the Go code also stores the
partially decoded record first, but the accumulator is discarded on
this path so the returned pair is unaffected); otherwise run the body
and continue. -/
def decodeLoop : List DecodeEvent → modules → Except String modules
  | [], acc => .ok acc
  | (.error e) :: _, _ => .error ("error reading module data " ++ e)
  | (.ok info) :: rest, acc => decodeLoop rest (decodeStep acc info)

/-- The outcome of cmd.Output() for the go list invocation: either the
invocation itself failed, or it produced a stream that the JSON
decoder turns into a sequence of decode events. -/
inductive ListingResult where
  | fail
  | ok (stream : List DecodeEvent)
deriving Repr

/-- goBuildContext.moduleInfo: on invocation failure return
(nil, nil); otherwise stream-decode the records into the graph; a
decode error is fatal and wrapped; a graph with no main module after a
full decode is the distinct fatal error; otherwise return the graph.
The Go pair (*modules, error) is an Option modules × Option String. -/
def moduleInfo (listing : ListingResult) : Option modules × Option String :=
  match listing with
  | .fail => (none, none)
  | .ok stream =>
    match decodeLoop stream { main := none, deps := [] } with
    | .error e => (none, some e)
    | .ok m =>
      match m.main with
      | none => (none, some ("couldn" ++ "\x27" ++ "t find main module"))
      | some _ => (some m, none)

/-- The fields of the go/build.Context value that this code reads or
writes (GOROOT, Dir), together with platform/arch defaults (GOOS,
GOARCH) that stand in for the remaining fields, which are only ever
copied. -/
structure Context where
  GOROOT : String
  GOOS : String
  GOARCH : String
  Dir : String
deriving Repr, DecidableEq

/-- Mirror of the Go struct goBuildContext: holds a go/build.Context
by value (not a pointer), so construction copies the default. -/
structure goBuildContext where
  bc : Context
deriving Repr, DecidableEq

/-- The process-wide globals: gb.Default, the shared default build
configuration.  State-passing makes the value copy in newBuildContext
observable: the constructor receives the globals and returns them, so
a mutation of the shared default would show up as a changed World. -/
structure World where
  Default : Context
deriving Repr, DecidableEq

/-- The log.Printf calls of newBuildContext, as structured events. -/
inductive LogEvent where
  | unexpectedGorootError (err : String) (output : String)
  | unexpectedEmptyGoroot
  | gorootWarning (defaultGoroot probedGoroot : String)
deriving Repr, DecidableEq

/-- The pair returned by getGoroot: the whitespace-trimmed output of
the environment-query process and the error from running it (getGoroot
returns both even when the process failed). -/
abbrev ProbeResult := String × Option String

/-- newBuildContext: copy gb.Default into the context by value, bind
the working directory on the copy, then reconcile GOROOT against the
probe result: on probe error log and blank the probed value; on an
empty probed value log; on a non-empty probed value differing from the
copied default, log the mismatch warning and override the copy.
Returns the (unchanged) globals, the context, the error result (the Go
code ends in return g, nil) and the emitted log events. -/
def newBuildContext (w : World) (dir : String) (probe : ProbeResult) :
    World × goBuildContext × Option String × List LogEvent :=
  let g : goBuildContext := { bc := w.Default }
  let g : goBuildContext := { g with bc := { g.bc with Dir := dir } }
  let logs : List LogEvent :=
    match probe.2 with
    | some e => [LogEvent.unexpectedGorootError e probe.1]
    | none => if probe.1 = "" then [LogEvent.unexpectedEmptyGoroot] else []
  let goroot : String := if probe.2.isSome then "" else probe.1
  if goroot ≠ "" ∧ g.bc.GOROOT ≠ goroot then
    (w, { g with bc := { g.bc with GOROOT := goroot } }, none,
      logs ++ [LogEvent.gorootWarning g.bc.GOROOT goroot])
  else
    (w, g, none, logs)

/-- Recognizer for the GOROOT-mismatch warning among the emitted log
events (the log.Printf of gorootWarningTemplate). -/
def isGorootWarning : LogEvent → Bool
  | .gorootWarning _ _ => true
  | _ => false

/-- Mirror of the packages.Package descriptor: only the canonical
package path is consumed here. -/
structure Package where
  PkgPath : String
deriving Repr, DecidableEq

/-- The outcome of packages.Load in NeedName mode: either the loader
errored, or it resolved a list of package descriptors. -/
abbrev LoadResult := Except String (List Package)

/-- goBuildContext.qualifyLocalImport: propagate a loader error
unwrapped; demand exactly one resolved package, otherwise fail with
the observed count; on exactly one, return its canonical path. -/
def qualifyLocalImport (loadResult : LoadResult) : Except String String :=
  match loadResult with
  | .error e => .error e
  | .ok pkgs =>
    if h : pkgs.length ≠ 1 then
      .error ("found " ++ toString pkgs.length ++ " local packages, expected 1")
    else
      .ok (pkgs.get ⟨0, by omega⟩).PkgPath

/-! ### Map-model and decode-loop lemmas -/

theorem mapFind_mapInsert (m : List (String × modInfo)) (k k' : String) (v : modInfo) :
    mapFind (mapInsert m k v) k' = if k' = k then some v else mapFind m k' := by
  induction m with
  | nil =>
    by_cases h : k' = k
    · simp [mapInsert, mapFind, List.find?, h]
    · simp [mapInsert, mapFind, List.find?, h, Ne.symm h]
  | cons p m ih =>
    simp only [mapInsert]
    by_cases hp : p.1 = k
    · simp only [if_pos hp]
      by_cases h : k' = k
      · simp [mapFind, List.find?, h]
      · simp [mapFind, List.find?, h, Ne.symm h, hp]
    · simp only [if_neg hp]
      by_cases hk' : p.1 = k'
      · have h : ¬ k' = k := fun hh => hp (hk'.trans hh)
        simp [mapFind, List.find?, hk', h]
      · have hhead : mapFind (p :: mapInsert m k v) k' = mapFind (mapInsert m k v) k' := by
          simp [mapFind, List.find?, hk']
        have htail : mapFind (p :: m) k' = mapFind m k' := by
          simp [mapFind, List.find?, hk']
        rw [hhead, htail, ih]

theorem length_mapInsert (m : List (String × modInfo)) (k : String) (v : modInfo) :
    (mapInsert m k v).length =
      if (mapFind m k).isSome then m.length else m.length + 1 := by
  induction m with
  | nil => simp [mapInsert, mapFind]
  | cons p m ih =>
    by_cases hp : p.1 = k <;>
      simp [mapInsert, mapFind, List.find?, hp, ih] <;>
      split <;> simp_all [mapFind]

theorem decodeLoop_append (rs : List modInfo) (evs : List DecodeEvent) (acc : modules) :
    decodeLoop (rs.map Except.ok ++ evs) acc = decodeLoop evs (rs.foldl decodeStep acc) := by
  induction rs generalizing acc with
  | nil => rfl
  | cons r rs ih => simpa [decodeLoop] using ih (decodeStep acc r)

theorem decodeLoop_okStream (rs : List modInfo) (acc : modules) :
    decodeLoop (rs.map Except.ok) acc = .ok (rs.foldl decodeStep acc) := by
  simpa using decodeLoop_append rs [] acc

theorem foldl_decodeStep_main (rs : List modInfo) (acc : modules) :
    (rs.foldl decodeStep acc).main =
      (rs.reverse.find? fun r => r.Main).or acc.main := by
  induction rs generalizing acc with
  | nil => simp
  | cons r rs ih =>
    simp only [List.foldl_cons, ih, List.reverse_cons, List.find?_append]
    cases hfind : rs.reverse.find? (fun r => r.Main) with
    | some x => simp [Option.or]
    | none => by_cases hm : r.Main <;> simp [Option.or, List.find?, decodeStep, hm]

theorem foldl_decodeStep_find (rs : List modInfo) (acc : modules) (p : String) :
    mapFind (rs.foldl decodeStep acc).deps p =
      (rs.reverse.find? fun r => r.Path = p).or (mapFind acc.deps p) := by
  induction rs generalizing acc with
  | nil => simp
  | cons r rs ih =>
    simp only [List.foldl_cons, ih, List.reverse_cons, List.find?_append]
    cases hfind : rs.reverse.find? (fun r => r.Path = p) with
    | some x => simp [Option.or]
    | none =>
      by_cases hm : r.Path = p <;>
        simp [Option.or, List.find?, decodeStep, mapFind_mapInsert, hm, Ne.symm]

theorem foldl_decodeStep_length (rs : List modInfo) (acc : modules)
    (hfresh : ∀ r ∈ rs, mapFind acc.deps r.Path = none)
    (hdist : rs.Pairwise fun a b => a.Path ≠ b.Path) :
    (rs.foldl decodeStep acc).deps.length = acc.deps.length + rs.length := by
  induction rs generalizing acc with
  | nil => simp
  | cons r rs ih =>
    rcases List.pairwise_cons.mp hdist with ⟨hhead, htail⟩
    have hfr : mapFind acc.deps r.Path = none := hfresh r (by simp)
    have hstep : (decodeStep acc r).deps.length = acc.deps.length + 1 := by
      simp [decodeStep, length_mapInsert, hfr]
    have hfresh' : ∀ x ∈ rs, mapFind (decodeStep acc r).deps x.Path = none := by
      intro x hx
      have hne : x.Path ≠ r.Path := fun h => (hhead x hx) h.symm
      simp [decodeStep, mapFind_mapInsert, hne, hfresh x (by simp [hx])]
    have := ih (decodeStep acc r) hfresh' htail
    simp only [List.foldl_cons, this, hstep, List.length_cons]
    omega

/-- Pairwise-distinct module paths make the path a key: two members
with the same path are the same record. -/
theorem path_inj_of_pairwise (rs : List modInfo)
    (h : rs.Pairwise fun a b => a.Path ≠ b.Path) :
    ∀ x ∈ rs, ∀ y ∈ rs, x.Path = y.Path → x = y := by
  induction rs with
  | nil => simp
  | cons a t ih =>
    rcases List.pairwise_cons.mp h with ⟨hhead, htail⟩
    intro x hx y hy hxy
    rcases List.mem_cons.mp hx with hxa | hxt <;>
      rcases List.mem_cons.mp hy with hya | hyt
    · exact hxa.trans hya.symm
    · exact absurd (hxa ▸ hxy) (hhead y hyt)
    · exact absurd (hya ▸ hxy.symm) (hhead x hxt)
    · exact ih htail x hxt y hyt hxy

/-- moduleInfo on a stream of successfully decoded records: the
outcome is decided by the last record marked Main. -/
theorem moduleInfo_okStream (rs : List modInfo) :
    moduleInfo (.ok (rs.map Except.ok)) =
      match rs.reverse.find? (fun r => r.Main) with
      | none => (none, some ("couldn" ++ "\x27" ++ "t find main module"))
      | some _ => (some (rs.foldl decodeStep { main := none, deps := [] }), none) := by
  have hmain := foldl_decodeStep_main rs { main := none, deps := [] }
  simp only [moduleInfo, decodeLoop_okStream]
  cases hfind : rs.reverse.find? (fun r => r.Main) with
  | none => simp_all [Option.or]
  | some x => simp_all [Option.or]

/-! ### Claim theorems -/

/-- C1: moduleInfo returns a nil module graph together with a nil
error exactly when the external dependency-listing invocation itself
failed; once decoding has begun (a stream of decode events exists) the
(nil, nil) outcome is impossible. -/
theorem moduleInfo_nil_nil_iff_invocation_failed (listing : ListingResult) :
    moduleInfo listing = (none, none) ↔ listing = ListingResult.fail := by
  cases listing with
  | fail => simp [moduleInfo]
  | ok s =>
    constructor
    · intro h
      exfalso
      simp only [moduleInfo] at h
      cases hd : decodeLoop s { main := none, deps := [] } with
      | error e => rw [hd] at h; simp at h
      | ok m =>
        rw [hd] at h
        cases hm : m.main <;> simp [hm] at h
    · intro h
      exact ListingResult.noConfusion h

/-- C7: a decode error during streaming (any non-EOF decoder error) is
fatal to the whole moduleInfo call: nil graph and the decoder error
wrapped with the context message. -/
theorem moduleInfo_decode_error_fatal (rs : List modInfo) (e : String)
    (rest : List DecodeEvent) :
    moduleInfo (.ok (rs.map Except.ok ++ .error e :: rest)) =
      (none, some ("error reading module data " ++ e)) := by
  simp [moduleInfo, decodeLoop_append, decodeLoop]

/-- C2: a stream that decodes completely with no record marked Main
yields a nil graph and the missing-main error message, which is
distinct from every wrapped decode-failure error. -/
theorem moduleInfo_missing_main (rs : List modInfo)
    (h : ∀ r ∈ rs, r.Main = false) :
    moduleInfo (.ok (rs.map Except.ok)) =
      (none, some ("couldn" ++ "\x27" ++ "t find main module")) ∧
    ∀ e : String,
      ("couldn" ++ "\x27" ++ "t find main module" : String) ≠
        "error reading module data " ++ e := by
  constructor
  · rw [moduleInfo_okStream]
    have hnone : rs.reverse.find? (fun r => r.Main) = none := by
      rw [List.find?_eq_none]
      intro x hx
      simp [h x (List.mem_reverse.mp hx)]
    rw [hnone]
  · intro e heq
    obtain ⟨l⟩ := e
    have h1 : ("couldn" ++ "\x27" ++ "t find main module" : String).data.head? =
        some (Char.ofNat 99) := rfl
    have h2 : ("error reading module data " ++ String.mk l).data.head? =
        some (Char.ofNat 101) := rfl
    rw [heq, h2] at h1
    simp at h1

/-- C2 witness: a singleton non-main stream exercises the theorem. -/
theorem moduleInfo_missing_main_witness :
    moduleInfo (ListingResult.ok
        (List.map Except.ok [(⟨"example.com/lib", "/s/lib", false⟩ : modInfo)])) =
      (none, some ("couldn" ++ "\x27" ++ "t find main module")) :=
  (moduleInfo_missing_main [⟨"example.com/lib", "/s/lib", false⟩] (by decide)).1

/-- C3: on a fully decoded stream containing a record marked Main,
moduleInfo returns a graph whose main is marked Main, whose dependency
map has an entry keyed by every decoded record path (the main module's
own path included), whose entry count equals the record count when
paths are pairwise distinct, and whose entries are last-write-wins (a
repeated path resolves to the later record) without failing. -/
theorem moduleInfo_graph_shape (rs : List modInfo)
    (hmain : ∃ r ∈ rs, r.Main = true) :
    ∃ m : modules,
      moduleInfo (.ok (rs.map Except.ok)) = (some m, none) ∧
      (∃ mr, m.main = some mr ∧ mr.Main = true) ∧
      (∀ r ∈ rs, ∃ v, mapFind m.deps r.Path = some v) ∧
      ((rs.Pairwise fun a b => a.Path ≠ b.Path) → m.deps.length = rs.length) ∧
      (∀ p : String, mapFind m.deps p = rs.reverse.find? fun r => r.Path = p) := by
  have hfind : (rs.reverse.find? fun r => r.Main).isSome := by
    rw [List.find?_isSome]
    obtain ⟨r, hr, hrm⟩ := hmain
    exact ⟨r, List.mem_reverse.mpr hr, by simp [hrm]⟩
  obtain ⟨mr, hmr⟩ := Option.isSome_iff_exists.mp hfind
  refine ⟨rs.foldl decodeStep { main := none, deps := [] }, ?_, ?_, ?_, ?_, ?_⟩
  · rw [moduleInfo_okStream, hmr]
  · refine ⟨mr, ?_, ?_⟩
    · rw [foldl_decodeStep_main, hmr]
      rfl
    · simpa using List.find?_some hmr
  · intro r hr
    rw [foldl_decodeStep_find]
    cases hf : rs.reverse.find? (fun x => x.Path = r.Path) with
    | some v => exact ⟨v, by simp [Option.or]⟩
    | none =>
      exfalso
      rw [List.find?_eq_none] at hf
      exact absurd (by simp) (hf r (List.mem_reverse.mpr hr))
  · intro hdist
    simpa using
      foldl_decodeStep_length rs { main := none, deps := [] } (fun r _ => rfl) hdist
  · intro p
    rw [foldl_decodeStep_find]
    exact Option.or_none

/-- C3 witness: a two-module stream (main plus one dependency)
exercises the theorem. -/
theorem moduleInfo_graph_shape_witness :
    ∃ m : modules,
      moduleInfo (.ok (List.map Except.ok
          [(⟨"example.com/app", "/s/app", true⟩ : modInfo),
           (⟨"example.com/lib", "/s/lib", false⟩ : modInfo)])) = (some m, none) ∧
      (∃ mr, m.main = some mr ∧ mr.Main = true) ∧
      (∀ r ∈ [(⟨"example.com/app", "/s/app", true⟩ : modInfo),
              (⟨"example.com/lib", "/s/lib", false⟩ : modInfo)],
          ∃ v, mapFind m.deps r.Path = some v) ∧
      (([(⟨"example.com/app", "/s/app", true⟩ : modInfo),
         (⟨"example.com/lib", "/s/lib", false⟩ : modInfo)].Pairwise
            fun a b => a.Path ≠ b.Path) → m.deps.length = 2) ∧
      (∀ p : String, mapFind m.deps p =
        [(⟨"example.com/app", "/s/app", true⟩ : modInfo),
         (⟨"example.com/lib", "/s/lib", false⟩ : modInfo)].reverse.find?
            fun r => r.Path = p) :=
  moduleInfo_graph_shape
    [⟨"example.com/app", "/s/app", true⟩, ⟨"example.com/lib", "/s/lib", false⟩]
    ⟨⟨"example.com/app", "/s/app", true⟩, by decide, rfl⟩

/-- C4 counterexample: a stream with two records marked Main decodes
into a successfully returned graph, so a successful moduleInfo result
does not guarantee exactly one decoded record with Main set. -/
theorem moduleInfo_unique_main_cex :
    (moduleInfo (.ok (List.map Except.ok
        [(⟨"example.com/a", "/a", true⟩ : modInfo),
         (⟨"example.com/b", "/b", true⟩ : modInfo)]))).2 = none ∧
    (moduleInfo (.ok (List.map Except.ok
        [(⟨"example.com/a", "/a", true⟩ : modInfo),
         (⟨"example.com/b", "/b", true⟩ : modInfo)]))).1.isSome = true ∧
    (List.filter (fun r : modInfo => r.Main)
        [(⟨"example.com/a", "/a", true⟩ : modInfo),
         (⟨"example.com/b", "/b", true⟩ : modInfo)]).length = 2 := by
  decide

/-- C4 amended: in every graph returned successfully by moduleInfo at
least one decoded record is marked Main and the graph main field is
the last such record; when the decoded paths are pairwise distinct the
main record is exactly the dependency-map entry under its own path;
after a full decode with no record marked Main the resolution fails. -/
theorem moduleInfo_main_invariant (rs : List modInfo) :
    (∀ m : modules, ∀ e : Option String,
        moduleInfo (.ok (rs.map Except.ok)) = (some m, e) →
          e = none ∧
          (∃ r ∈ rs, r.Main = true) ∧
          m.main = (rs.reverse.find? fun r => r.Main) ∧
          ((rs.Pairwise fun a b => a.Path ≠ b.Path) →
            ∀ mr, m.main = some mr → mapFind m.deps mr.Path = some mr)) ∧
    ((∀ r ∈ rs, r.Main = false) →
        moduleInfo (.ok (rs.map Except.ok)) =
          (none, some ("couldn" ++ "\x27" ++ "t find main module"))) := by
  constructor
  · intro m e h
    rw [moduleInfo_okStream] at h
    cases hfind : rs.reverse.find? (fun r => r.Main) with
    | none => rw [hfind] at h; simp at h
    | some x =>
      rw [hfind] at h
      have hm : some (rs.foldl decodeStep { main := none, deps := [] }) = some m :=
        congrArg Prod.fst h
      have he : (none : Option String) = e := congrArg Prod.snd h
      obtain rfl : rs.foldl decodeStep { main := none, deps := [] } = m :=
        Option.some.inj hm
      refine ⟨he.symm, ?_, ?_, ?_⟩
      · exact ⟨x, List.mem_reverse.mp (List.mem_of_find?_eq_some hfind),
          by simpa using List.find?_some hfind⟩
      · rw [foldl_decodeStep_main, hfind, Option.or_none]
      · intro hdist mr hmr
        rw [foldl_decodeStep_main, hfind, Option.or_none] at hmr
        obtain rfl : x = mr := Option.some.inj hmr
        have hmem : x ∈ rs := List.mem_reverse.mp (List.mem_of_find?_eq_some hfind)
        rw [foldl_decodeStep_find]
        cases hf : rs.reverse.find? (fun r => r.Path = x.Path) with
        | none =>
          exfalso
          rw [List.find?_eq_none] at hf
          exact absurd (by simp) (hf x (List.mem_reverse.mpr hmem))
        | some y =>
          have hy : y ∈ rs := List.mem_reverse.mp (List.mem_of_find?_eq_some hf)
          have hyp : y.Path = x.Path := by simpa using List.find?_some hf
          rw [path_inj_of_pairwise rs hdist y hy x hmem hyp]
          exact Option.or_none
  · intro h
    rw [moduleInfo_okStream]
    have hnone : rs.reverse.find? (fun r => r.Main) = none := by
      rw [List.find?_eq_none]
      intro x hx
      simp [h x (List.mem_reverse.mp hx)]
    rw [hnone]

/-- C4 witness: the amended invariant applied to a concrete two-module
stream, locating the main record under its own path. -/
theorem moduleInfo_main_invariant_witness :
    mapFind
      ({ main := some ⟨"example.com/app", "/s/app", true⟩,
         deps := [("example.com/app", ⟨"example.com/app", "/s/app", true⟩),
                  ("example.com/lib", ⟨"example.com/lib", "/s/lib", false⟩)] } :
        modules).deps
      (modInfo.Path ⟨"example.com/app", "/s/app", true⟩) =
      some ⟨"example.com/app", "/s/app", true⟩ :=
  ((moduleInfo_main_invariant
      [⟨"example.com/app", "/s/app", true⟩, ⟨"example.com/lib", "/s/lib", false⟩]).1
    { main := some ⟨"example.com/app", "/s/app", true⟩,
      deps := [("example.com/app", ⟨"example.com/app", "/s/app", true⟩),
               ("example.com/lib", ⟨"example.com/lib", "/s/lib", false⟩)] }
    none (by decide)).2.2.2 (by decide) ⟨"example.com/app", "/s/app", true⟩ (by decide)

/-- C5: a probe returning a non-empty root different from the copied
default overrides the root and emits exactly one mismatch warning; a
probe returning the default root leaves it in place and emits no
mismatch warning. -/
theorem newBuildContext_goroot_reconciliation (w : World) (dir r : String) :
    (r ≠ "" → r ≠ w.Default.GOROOT →
      (newBuildContext w dir (r, none)).2.1.bc.GOROOT = r ∧
        ((newBuildContext w dir (r, none)).2.2.2.countP isGorootWarning) = 1) ∧
    ((newBuildContext w dir (w.Default.GOROOT, none)).2.1.bc.GOROOT =
        w.Default.GOROOT ∧
      ((newBuildContext w dir (w.Default.GOROOT, none)).2.2.2.countP
          isGorootWarning) = 0) := by
  constructor
  · intro hne hdiff
    have hcond : r ≠ "" ∧ w.Default.GOROOT ≠ r := ⟨hne, Ne.symm hdiff⟩
    simp [newBuildContext, hne, hcond, isGorootWarning, List.countP_cons]
  · constructor
    · by_cases h0 : w.Default.GOROOT = "" <;>
        simp [newBuildContext, h0]
    · by_cases h0 : w.Default.GOROOT = "" <;>
        simp [newBuildContext, h0, isGorootWarning, List.countP_cons]

/-- C5 witness: the scenario of a probed root /opt/go1.15 against a
default /usr/local/go. -/
theorem newBuildContext_goroot_reconciliation_witness :
    (newBuildContext
        ⟨⟨"/usr/local/go", "linux", "amd64", ""⟩⟩ "/w"
        ("/opt/go1.15", none)).2.1.bc.GOROOT = "/opt/go1.15" ∧
      ((newBuildContext
          ⟨⟨"/usr/local/go", "linux", "amd64", ""⟩⟩ "/w"
          ("/opt/go1.15", none)).2.2.2.countP isGorootWarning) = 1 :=
  (newBuildContext_goroot_reconciliation
      ⟨⟨"/usr/local/go", "linux", "amd64", ""⟩⟩ "/w" "/opt/go1.15").1
    (by decide) (by decide)

/-- C6: when the probe errors, or returns an empty root, a diagnostic
is logged, the copied default root is not overridden, and construction
still succeeds (the error result of newBuildContext is nil). -/
theorem newBuildContext_probe_failure_nonfatal (w : World) (dir out e : String) :
    ((newBuildContext w dir (out, some e)).2.1.bc.GOROOT = w.Default.GOROOT ∧
      (newBuildContext w dir (out, some e)).2.2.1 = none ∧
      (newBuildContext w dir (out, some e)).2.2.2 =
        [LogEvent.unexpectedGorootError e out]) ∧
    ((newBuildContext w dir ("", none)).2.1.bc.GOROOT = w.Default.GOROOT ∧
      (newBuildContext w dir ("", none)).2.2.1 = none ∧
      (newBuildContext w dir ("", none)).2.2.2 =
        [LogEvent.unexpectedEmptyGoroot]) := by
  refine ⟨⟨?_, ?_, ?_⟩, ⟨?_, ?_, ?_⟩⟩ <;> simp [newBuildContext]

/-- C10: newBuildContext returns the constructed environment with a
nil error unconditionally: there is no input on which its error result
is non-nil (the Go function ends in return g, nil). -/
theorem newBuildContext_never_errors (w : World) (dir : String)
    (probe : ProbeResult) :
    (newBuildContext w dir probe).2.2.1 = none := by
  obtain ⟨r, perr⟩ := probe
  cases perr <;> simp [newBuildContext] <;> split <;> rfl

/-- C9: the shared default configuration is copied by value: the
globals come back unchanged from construction, the working directory
and any root override are bound only on the private copy, and every
other field of the copy keeps the default's value.  The later
operations moduleInfo and qualifyLocalImport take no globals at all
(their Lean types have no World argument), so they cannot mutate the
default either. -/
theorem newBuildContext_preserves_default (w : World) (dir : String)
    (probe : ProbeResult) :
    (newBuildContext w dir probe).1 = w ∧
    (newBuildContext w dir probe).2.1.bc.GOOS = w.Default.GOOS ∧
    (newBuildContext w dir probe).2.1.bc.GOARCH = w.Default.GOARCH ∧
    (newBuildContext w dir probe).2.1.bc.Dir = dir ∧
    ((newBuildContext w dir probe).2.1.bc.GOROOT = w.Default.GOROOT ∨
      (newBuildContext w dir probe).2.1.bc.GOROOT = probe.1) := by
  obtain ⟨r, perr⟩ := probe
  cases perr <;> simp [newBuildContext] <;> split <;> simp

/-- C8: qualifyLocalImport propagates a loader error unwrapped, fails
with the observed count when the loader resolves a number of packages
different from one, succeeds with the single canonical path when
exactly one package is resolved, and succeeds in no other case. -/
theorem qualifyLocalImport_contract (res : LoadResult) :
    (∀ e, res = .error e → qualifyLocalImport res = .error e) ∧
    (∀ pkgs, res = .ok pkgs → pkgs.length ≠ 1 →
      qualifyLocalImport res =
        .error ("found " ++ toString pkgs.length ++ " local packages, expected 1")) ∧
    (∀ p, res = .ok [p] → qualifyLocalImport res = .ok p.PkgPath) ∧
    ((∃ s, qualifyLocalImport res = .ok s) ↔ ∃ p, res = .ok [p]) := by
  cases res with
  | error e =>
    refine ⟨?_, ?_, ?_, ?_⟩
    · intro e' h
      cases h
      rfl
    · intro pkgs h hlen
      simp at h
    · intro p h
      simp at h
    · constructor
      · rintro ⟨s, hs⟩
        simp [qualifyLocalImport] at hs
      · rintro ⟨p, hp⟩
        simp at hp
  | ok pkgs =>
    refine ⟨?_, ?_, ?_, ?_⟩
    · intro e' h
      simp at h
    · intro pkgs' h hlen
      obtain rfl : pkgs = pkgs' := by injection h
      simp [qualifyLocalImport, hlen]
    · intro p h
      obtain rfl : pkgs = [p] := by injection h
      simp [qualifyLocalImport]
    · constructor
      · rintro ⟨s, hs⟩
        by_cases hlen : pkgs.length = 1
        · obtain ⟨a, rfl⟩ := List.length_eq_one.mp hlen
          exact ⟨a, rfl⟩
        · exact absurd hs (by simp [qualifyLocalImport, hlen])
      · rintro ⟨p, hp⟩
        obtain rfl : pkgs = [p] := by injection hp
        exact ⟨p.PkgPath, by simp [qualifyLocalImport]⟩

/-- C8 witness: a loader result with exactly one package yields its
canonical path. -/
theorem qualifyLocalImport_contract_witness :
    qualifyLocalImport (.ok [⟨"example.com/foo"⟩]) = .ok "example.com/foo" :=
  (qualifyLocalImport_contract (.ok [⟨"example.com/foo"⟩])).2.2.1
    ⟨"example.com/foo"⟩ rfl

end KoBuild
